import Mathlib

/-!
Verification of the webjage content-enhancement pipeline.

The definitions in this file are a shallow embedding of the JavaScript code in
`webjage-extension/backend/services/contentAnalyzer.js` and of the
`POST /api/analyze` route handler. JavaScript strings are modelled as Lean
`String`/`List Char`, JavaScript numbers as `Nat`/`Int` (scores are computed in
`Int` because intermediate values may go negative), absent (`undefined`) values
as `Option`, and the handler's single awaited AI call as an explicit
`Except`-valued input together with a count of how often the collaborator was
invoked.
-/

set_option maxHeartbeats 1000000

namespace Webjage

/-! ### Character classes of the JavaScript regexes -/

/-- Whitespace class of the JavaScript regex `\s` (the same set is removed by
`String.prototype.trim`). -/
def isWS (c : Char) : Bool :=
  c = ' ' || c = '\t' || c = '\n' || c = '\r' || c.toNat = 0x0b || c.toNat = 0x0c ||
  c.toNat = 0xA0 || c.toNat = 0x1680 || (0x2000 ≤ c.toNat && c.toNat ≤ 0x200A) ||
  c.toNat = 0x2028 || c.toNat = 0x2029 || c.toNat = 0x202F || c.toNat = 0x205F ||
  c.toNat = 0x3000 || c.toNat = 0xFEFF

/-- Word characters of the JavaScript regex `\w`: ASCII letters, digits and the
underscore. -/
def isWordChar (c : Char) : Bool :=
  ('a' ≤ c && c ≤ 'z') || ('A' ≤ c && c ≤ 'Z') || ('0' ≤ c && c ≤ '9') || c = '_'

/-- Punctuation kept by the stripping regex of `cleanText`
(`[^\w\s\.,!?;:()\-"']`). -/
def isKeptPunct (c : Char) : Bool :=
  c = '.' || c = ',' || c = '!' || c = '?' || c = ';' || c = ':' ||
  c = '(' || c = ')' || c = '-' || c = '"' || c.toNat = 39

/-- Characters that survive the stripping regex of `cleanText`. -/
def isAllowed (c : Char) : Bool := isWordChar c || isWS c || isKeptPunct c

/-! ### cleanText -/

/-- Embedding of `text.replace(/\s+/g, ' ')`: every maximal run of whitespace
characters becomes a single space. -/
def collapseWS : List Char → List Char
  | [] => []
  | c :: rest =>
    if isWS c then
      match rest with
      | [] => [' ']
      | c2 :: _ => if isWS c2 then collapseWS rest else ' ' :: collapseWS rest
    else c :: collapseWS rest

/-- Embedding of `String.prototype.trim`: drop whitespace from both ends. -/
def trimWS (l : List Char) : List Char :=
  ((l.dropWhile isWS).reverse.dropWhile isWS).reverse

/-- Embedding of `cleanText` (contentAnalyzer.js): for falsy input return the
empty string, otherwise collapse whitespace runs, strip characters outside
`\w`, `\s` and the kept punctuation set, and trim. -/
def cleanText (s : String) : String :=
  if s = "" then "" else ⟨trimWS ((collapseWS s.data).filter isAllowed)⟩

/-! ### calculateReadingTime -/

/-- Embedding of `calculateReadingTime` (contentAnalyzer.js). `Math.ceil` of a
non-negative quotient is `(wordCount + 224) / 225` in `Nat` arithmetic. -/
def calculateReadingTime (wordCount : Nat) : String :=
  if wordCount < 1 then "< 1 min read"
  else
    let minutes := (wordCount + 224) / 225
    if minutes = 1 then "1 min read"
    else if minutes < 60 then s!"{minutes} min read"
    else
      let hours := minutes / 60
      let remainingMinutes := minutes % 60
      s!"{hours}h {remainingMinutes}m read"

/-- Reading-time reference definition, written from the specification's words:
225 words per minute, rounding up to whole minutes, output keyed on the ranges
minutes = 1, 2 ≤ minutes ≤ 59 and minutes ≥ 60 (integer hour/minute split). -/
def specReadingTime (wordCount : Nat) : String :=
  if wordCount < 1 then "< 1 min read"
  else
    let minutes := (224 + wordCount) / 225
    if minutes = 1 then "1 min read"
    else if 2 ≤ minutes ∧ minutes ≤ 59 then s!"{minutes} min read"
    else s!"{minutes / 60}h {minutes % 60}m read"

/-- C5: `calculateReadingTime` agrees with the reference definition for every
word count; in particular at 0, 225, 450 and 13500 it yields the four sample
strings of the specification. -/
theorem calculateReadingTime_matches_spec :
    (∀ wordCount : Nat, calculateReadingTime wordCount = specReadingTime wordCount) ∧
    calculateReadingTime 0 = "< 1 min read" ∧
    calculateReadingTime 225 = "1 min read" ∧
    calculateReadingTime 450 = "2 min read" ∧
    calculateReadingTime 13500 = "1h 0m read" := by
  refine ⟨fun wc => ?_, by decide, by decide, by decide, by decide⟩
  simp only [calculateReadingTime, specReadingTime, Nat.add_comm 224 wc]
  split_ifs <;> first | rfl | omega

/-- C4 counterexample: `cleanText` is not idempotent. On `"a § b"` the
stripping step deletes the `§` between two already-collapsed single spaces,
leaving a double space that only a second application collapses. -/
theorem cleanText_not_idempotent_cex :
    cleanText (cleanText "a § b") ≠ cleanText "a § b" := by decide

/-! ### Idempotence of cleanText on inputs without stripped characters -/

/-- Adjacent characters are never both whitespace: the shape invariant that
`collapseWS` establishes. -/
def noWSPair (a b : Char) : Prop := ¬(isWS a = true ∧ isWS b = true)

theorem collapseWS_one (c : Char) : collapseWS [c] = if isWS c then [' '] else [c] := rfl

theorem collapseWS_two (a b : Char) (t : List Char) :
    collapseWS (a :: b :: t) =
      if isWS a then
        (if isWS b then collapseWS (b :: t) else ' ' :: collapseWS (b :: t))
      else a :: collapseWS (b :: t) := rfl

/-- Characters of `collapseWS l` come from `l` or are the inserted space. -/
theorem mem_collapseWS {l : List Char} {c : Char} (h : c ∈ collapseWS l) :
    c ∈ l ∨ c = ' ' := by
  induction l with
  | nil => simp [collapseWS] at h
  | cons a t ih =>
    cases t with
    | nil =>
      rw [collapseWS_one] at h
      split at h <;> simp_all
    | cons b u =>
      rw [collapseWS_two] at h
      split at h
      · split at h
        · rcases ih h with h' | h'
          · exact Or.inl (List.mem_cons_of_mem a h')
          · exact Or.inr h'
        · rcases List.mem_cons.mp h with h' | h'
          · exact Or.inr h'
          · rcases ih h' with h'' | h''
            · exact Or.inl (List.mem_cons_of_mem a h'')
            · exact Or.inr h''
      · rcases List.mem_cons.mp h with h' | h'
        · exact Or.inl (h' ▸ List.mem_cons_self a _)
        · rcases ih h' with h'' | h''
          · exact Or.inl (List.mem_cons_of_mem a h'')
          · exact Or.inr h''

/-- Every whitespace character surviving `collapseWS` is the single space. -/
theorem collapseWS_ws_space {l : List Char} {c : Char} (hc : c ∈ collapseWS l)
    (hw : isWS c = true) : c = ' ' := by
  induction l with
  | nil => simp [collapseWS] at hc
  | cons a t ih =>
    cases t with
    | nil =>
      rw [collapseWS_one] at hc
      split at hc <;> simp_all
    | cons b u =>
      rw [collapseWS_two] at hc
      split at hc
      · split at hc
        · exact ih hc
        · rcases List.mem_cons.mp hc with h' | h'
          · exact h'
          · exact ih h'
      · rcases List.mem_cons.mp hc with h' | h'
        · subst h'; simp_all
        · exact ih h'

/-- When the head is not whitespace, `collapseWS` keeps it in place. -/
theorem collapseWS_head_of_not_ws {b : Char} {u : List Char} (hb : isWS b = false) :
    (collapseWS (b :: u)).head? = some b := by
  cases u with
  | nil => rw [collapseWS_one]; simp [hb]
  | cons v w => rw [collapseWS_two]; simp [hb]

/-- The output of `collapseWS` never contains two adjacent whitespace
characters. -/
theorem collapseWS_chain (l : List Char) : List.Chain' noWSPair (collapseWS l) := by
  induction l with
  | nil => simp [collapseWS]
  | cons a t ih =>
    cases t with
    | nil =>
      rw [collapseWS_one]
      split <;> simp
    | cons b u =>
      rw [collapseWS_two]
      split
      · split
        · exact ih
        · rw [List.chain'_cons']
          refine ⟨?_, ih⟩
          intro y hy
          rw [collapseWS_head_of_not_ws (by simp_all)] at hy
          simp only [Option.mem_def, Option.some.injEq] at hy
          subst hy
          intro hpair
          simp_all
      · rw [List.chain'_cons']
        refine ⟨?_, ih⟩
        intro y hy
        intro hpair
        simp_all


/-- Lists satisfying the `collapseWS` shape invariants are fixed points of
`collapseWS`. -/
theorem collapseWS_eq_self : ∀ {l : List Char},
    List.Chain' noWSPair l → (∀ c ∈ l, isWS c = true → c = ' ') → collapseWS l = l
  | [], _, _ => rfl
  | [a], _, hsp => by
    rw [collapseWS_one]
    split
    · exact congrArg (· :: []) (hsp a (List.mem_singleton_self a) (by assumption)).symm
    · rfl
  | a :: b :: u, hchain, hsp => by
    have htail : List.Chain' noWSPair (b :: u) := hchain.tail
    have hsptail : ∀ c ∈ b :: u, isWS c = true → c = ' ' :=
      fun c hc => hsp c (List.mem_cons_of_mem a hc)
    have ih := collapseWS_eq_self htail hsptail
    rw [collapseWS_two]
    by_cases ha : isWS a = true
    · have hb : isWS b = false := by
        have := (List.chain'_cons.mp hchain).1
        unfold noWSPair at this
        cases hb : isWS b
        · rfl
        · exact absurd ⟨ha, hb⟩ this
      rw [if_pos ha, if_neg (by simp [hb]), ih,
        hsp a (List.mem_cons_self a _) ha]
    · rw [if_neg ha, ih]

theorem p_head_of_dropWhile_eq {p : Char → Bool} {l : List Char} {c : Char} {t : List Char}
    (h : l.dropWhile p = c :: t) : p c = false := by
  induction l with
  | nil => simp [List.dropWhile] at h
  | cons a u ih =>
    rw [List.dropWhile_cons] at h
    split at h
    · exact ih h
    · cases h
      simp_all

theorem dropWhile_dropWhile (p : Char → Bool) (l : List Char) :
    (l.dropWhile p).dropWhile p = l.dropWhile p := by
  cases h : l.dropWhile p with
  | nil => rfl
  | cons c t => rw [List.dropWhile_cons, p_head_of_dropWhile_eq h]; simp

/-- Characters of the trimmed list come from the original list. -/
theorem trimWS_subset (l : List Char) : trimWS l ⊆ l := by
  intro c hc
  unfold trimWS at hc
  rw [List.mem_reverse] at hc
  have h1 := (List.dropWhile_sublist (l := (l.dropWhile isWS).reverse) isWS).subset hc
  rw [List.mem_reverse] at h1
  exact (List.dropWhile_sublist isWS).subset h1

/-- Trimming preserves the no-adjacent-whitespace invariant. -/
theorem trimWS_chain {l : List Char} (h : List.Chain' noWSPair l) :
    List.Chain' noWSPair (trimWS l) := by
  have hflip : ∀ a b : Char, noWSPair a b → flip noWSPair a b := by
    intro a b hab hcontra
    exact hab ⟨hcontra.2, hcontra.1⟩
  unfold trimWS
  rw [List.chain'_reverse]
  apply List.Chain'.imp hflip
  apply List.Chain'.suffix ?_ (List.dropWhile_suffix isWS)
  rw [List.chain'_reverse]
  apply List.Chain'.imp hflip
  exact h.suffix (List.dropWhile_suffix isWS)

theorem trimWS_idem (l : List Char) : trimWS (trimWS l) = trimWS l := by
  have hB : (trimWS l).reverse.dropWhile isWS = (trimWS l).reverse := by
    unfold trimWS
    rw [List.reverse_reverse]
    exact dropWhile_dropWhile isWS _
  have hA : (trimWS l).dropWhile isWS = trimWS l := by
    cases h : trimWS l with
    | nil => rfl
    | cons c t =>
      rw [List.dropWhile_cons]
      suffices hc : isWS c = false by simp [hc]
      have hx : ((l.dropWhile isWS).reverse.dropWhile isWS).reverse = c :: t := by
        rw [← h]; rfl
      obtain ⟨pre, hpre⟩ := List.dropWhile_suffix (l := (l.dropWhile isWS).reverse) isWS
      have hlast : (l.dropWhile isWS).reverse.getLast? = some c := by
        have hx' : (l.dropWhile isWS).reverse.dropWhile isWS = (c :: t).reverse := by
          rw [← hx, List.reverse_reverse]
        rw [← hpre, hx']
        rw [List.getLast?_append_of_ne_nil, List.getLast?_reverse]
        · simp
        · simp
      rw [List.getLast?_reverse] at hlast
      cases hdw : (l.dropWhile isWS) with
      | nil => rw [hdw] at hlast; simp at hlast
      | cons d u =>
        rw [hdw] at hlast
        simp only [List.head?_cons, Option.some.injEq] at hlast
        subst hlast
        exact p_head_of_dropWhile_eq hdw
  show (((trimWS l).dropWhile isWS).reverse.dropWhile isWS).reverse = trimWS l
  rw [hA, hB, List.reverse_reverse]

/-- C4 amended: `cleanText` is idempotent on every input all of whose
characters survive the stripping regex (word characters, whitespace and the
kept punctuation). The counterexample `cleanText_not_idempotent_cex` shows the
restriction is necessary: stripping a disallowed character can merge two
single spaces into a run that only a second pass collapses. -/
theorem cleanText_idem_on_allowed (s : String) (h : ∀ c ∈ s.data, isAllowed c = true) :
    cleanText (cleanText s) = cleanText s := by
  by_cases hs : s = ""
  · subst hs; rfl
  · have hfilter1 : (collapseWS s.data).filter isAllowed = collapseWS s.data := by
      apply List.filter_eq_self.mpr
      intro c hc
      rcases mem_collapseWS hc with h' | h'
      · exact h c h'
      · subst h'; decide
    have hclean1 : cleanText s = ⟨trimWS (collapseWS s.data)⟩ := by
      rw [cleanText, if_neg hs, hfilter1]
    by_cases hynil : (⟨trimWS (collapseWS s.data)⟩ : String) = ""
    · rw [hclean1, hynil]
      rfl
    · rw [hclean1]
      rw [cleanText, if_neg hynil]
      have hsub : ∀ c ∈ trimWS (collapseWS s.data), isAllowed c = true := by
        intro c hc
        have hmem := trimWS_subset _ hc
        rcases mem_collapseWS hmem with h' | h'
        · exact h c h'
        · subst h'; decide
      have hchain : List.Chain' noWSPair (trimWS (collapseWS s.data)) :=
        trimWS_chain (collapseWS_chain s.data)
      have hspace : ∀ c ∈ trimWS (collapseWS s.data), isWS c = true → c = ' ' :=
        fun c hc hw => collapseWS_ws_space (trimWS_subset _ hc) hw
      have hcol : collapseWS (trimWS (collapseWS s.data)) = trimWS (collapseWS s.data) :=
        collapseWS_eq_self hchain hspace
      apply String.ext
      show trimWS ((collapseWS (String.mk (trimWS (collapseWS s.data))).data).filter isAllowed)
          = trimWS (collapseWS s.data)
      have hdata : (String.mk (trimWS (collapseWS s.data))).data = trimWS (collapseWS s.data) := rfl
      rw [hdata, hcol, List.filter_eq_self.mpr hsub, trimWS_idem]

/-- C4 amended witness: a concrete all-allowed input on which the idempotence
theorem applies. -/
theorem cleanText_idem_on_allowed_witness :
    (∀ c ∈ ("a  b, (c)!" : String).data, isAllowed c = true) ∧
    cleanText (cleanText "a  b, (c)!") = cleanText "a  b, (c)!" :=
  ⟨by decide, cleanText_idem_on_allowed "a  b, (c)!" (by decide)⟩

/-! ### analyzeTextStructure -/

/-- Sentence-ending characters of the regex class `[.!?]`. -/
def isSentenceEnd (c : Char) : Bool := c = '.' || c = '!' || c = '?'

/-- Line terminators after which the JavaScript multiline anchor
matches. -/
def isLineTerm (c : Char) : Bool :=
  c = '\n' || c = '\r' || c.toNat = 0x2028 || c.toNat = 0x2029

/-- Math.round of the non-negative quotient `a / b`, in exact arithmetic:
half-way cases round up. -/
def jsRoundDiv (a b : Nat) : Nat := (2 * a + b) / (2 * b)

mutual

/-- Accumulating worker for `splitRuns`: `acc` is the current chunk in
reverse. -/
def splitRunsGo (p : Char → Bool) : List Char → List Char → List (List Char)
  | acc, [] => [acc.reverse]
  | acc, c :: rest =>
    if p c then acc.reverse :: splitRunsSkip p rest
    else splitRunsGo p (c :: acc) rest

/-- Worker skipping the remainder of a delimiter run. -/
def splitRunsSkip (p : Char → Bool) : List Char → List (List Char)
  | [] => [[]]
  | c :: rest => if p c then splitRunsSkip p rest else splitRunsGo p [c] rest

end

/-- Embedding of `String.prototype.split` with a regex matching one maximal
run of `p`-characters (such as `/[.!?]+/` or `/\s+/`): the fragments between
delimiter runs, including an empty fragment at either boundary when the
string starts or ends with a delimiter. -/
def splitRuns (p : Char → Bool) (l : List Char) : List (List Char) :=
  splitRunsGo p [] l

/-- Embedding of splitting on every single delimiter character: the lines at
which the multiline anchor of `/^.../m` can match. -/
def splitEachGo (p : Char → Bool) : List Char → List Char → List (List Char)
  | acc, [] => [acc.reverse]
  | acc, c :: rest =>
    if p c then acc.reverse :: splitEachGo p [] rest
    else splitEachGo p (c :: acc) rest

/-- Lines of a string with respect to the JavaScript line terminators. -/
def splitEach (p : Char → Bool) (l : List Char) : List (List Char) :=
  splitEachGo p [] l

/-- Split on the literal two-character separator of `text.split('\\n\\n')`:
leftmost, non-overlapping occurrences. -/
def splitOnNNGo : List Char → List Char → List (List Char)
  | acc, '\n' :: '\n' :: rest => acc.reverse :: splitOnNNGo [] rest
  | acc, c :: rest => splitOnNNGo (c :: acc) rest
  | acc, [] => [acc.reverse]

/-- Fragments of a character list split on the literal blank-line separator. -/
def splitOnNN (l : List Char) : List (List Char) := splitOnNNGo [] l

/-- Matching of the regex `^(H[1-6]:|#)` at the start of one line. None of
the characters this pattern can consume is a line terminator, so a match
starting at a line-start position never crosses a line end and testing each
line is equivalent to testing each line-start suffix of the raw text. -/
def headingStart : List Char → Bool
  | '#' :: _ => true
  | 'H' :: d :: ':' :: _ => '1' ≤ d && d ≤ '6'
  | _ => false

/-- The bullet class of the source's hasList regex. The source file
(contentAnalyzer.js:564) literally contains the characters U+00E2, U+20AC and
U+00A2 in the class - the UTF-8 bytes of a bullet point mis-decoded as
cp1252 - so the class matches those three characters, the hyphen and the
asterisk, and does not match U+2022. -/
def isBulletChar (c : Char) : Bool :=
  c.toNat = 0xE2 || c.toNat = 0x20AC || c.toNat = 0xA2 || c = '-' || c = '*'

/-- Matching of the source's bullet regex at one position of the raw text:
a class character followed by one `\s` character. The `\s` may itself be a
line terminator, so this must be applied to the full suffix of the text at a
line-start position, not to the chopped-off line. -/
def listMarkStart : List Char → Bool
  | b :: c :: _ => isBulletChar b && isWS c
  | _ => false

/-- The proper suffixes of the text that begin immediately after a line
terminator: together with the text itself these are exactly the positions at
which the multiline anchor of a `/^.../m` regex can start a match. -/
def lineStartTails : List Char → List (List Char)
  | [] => []
  | c :: rest =>
    if isLineTerm c then rest :: lineStartTails rest else lineStartTails rest

/-- Bullet-line test written from the claim's words: a line starting with
the bullet marker `•`, `-` or `*` followed by a space character. -/
def specListMark : List Char → Bool
  | b :: c :: _ => (b = '•' || b = '-' || b = '*') && isWS c
  | _ => false

/-- Result record of `analyzeTextStructure`. -/
structure StructureStats where
  paragraphs : Nat
  sentences : Nat
  avgSentenceLength : Nat
  hasHeadings : Bool
  hasList : Bool
  deriving DecidableEq, Repr

/-- Embedding of `analyzeTextStructure` (contentAnalyzer.js). The word total
feeding `avgSentenceLength` is `text.split(/\s+/).length`, which counts the
empty boundary fragments produced by leading or trailing whitespace. The
bullet regex is tested against every line-start suffix of the raw text
because its trailing `\s` may consume the line terminator itself; the
heading regex cannot, so testing the chopped lines is equivalent there. -/
def analyzeTextStructure (text : String) : StructureStats :=
  if text = "" then
    { paragraphs := 0, sentences := 0, avgSentenceLength := 0,
      hasHeadings := false, hasList := false }
  else
    let paragraphs := (splitOnNN text.data).filter (fun p => !(trimWS p).isEmpty)
    let sentences := (splitRuns isSentenceEnd text.data).filter (fun c => !(trimWS c).isEmpty)
    { paragraphs := paragraphs.length
      sentences := sentences.length
      avgSentenceLength :=
        if sentences.length > 0 then
          jsRoundDiv (splitRuns isWS text.data).length sentences.length
        else 0
      hasHeadings := (splitEach isLineTerm text.data).any headingStart
      hasList := (text.data :: lineStartTails text.data).any listMarkStart }

/-- Structure-statistics reference definition, written from the claim's
words: the average sentence length divides the total count of non-empty
whitespace-delimited words by the sentence count, and hasList asks for some
line starting with the bullet marker `•`, `-` or `*` followed by a space. -/
def specStructure (text : String) : StructureStats :=
  if text = "" then
    { paragraphs := 0, sentences := 0, avgSentenceLength := 0,
      hasHeadings := false, hasList := false }
  else
    let sentenceCount :=
      List.countP (fun c => !(trimWS c).isEmpty) (splitRuns isSentenceEnd text.data)
    { paragraphs := List.countP (fun p => !(trimWS p).isEmpty) (splitOnNN text.data)
      sentences := sentenceCount
      avgSentenceLength :=
        if sentenceCount > 0 then
          jsRoundDiv ((splitRuns isWS text.data).filter (fun w => !w.isEmpty)).length
            sentenceCount
        else 0
      hasHeadings := decide (∃ line ∈ splitEach isLineTerm text.data, headingStart line = true)
      hasList := decide (∃ line ∈ splitEach isLineTerm text.data, specListMark line = true) }

/-- Structure-statistics definition amended in the word total - it is the
length of the array obtained by splitting on whitespace runs, including the
empty boundary fragments contributed by leading or trailing whitespace - and
in the bullet test: at the start of the text or right after a line
terminator there is one of the source's literal class characters (U+00E2,
U+20AC, U+00A2, `-`, `*`) followed by a whitespace character, which may
itself be a line terminator. -/
def specStructureAmended (text : String) : StructureStats :=
  if text = "" then
    { paragraphs := 0, sentences := 0, avgSentenceLength := 0,
      hasHeadings := false, hasList := false }
  else
    let sentenceCount :=
      List.countP (fun c => !(trimWS c).isEmpty) (splitRuns isSentenceEnd text.data)
    { paragraphs := List.countP (fun p => !(trimWS p).isEmpty) (splitOnNN text.data)
      sentences := sentenceCount
      avgSentenceLength :=
        if sentenceCount > 0 then
          jsRoundDiv (splitRuns isWS text.data).length sentenceCount
        else 0
      hasHeadings := decide (∃ line ∈ splitEach isLineTerm text.data, headingStart line = true)
      hasList := decide (∃ s ∈ text.data :: lineStartTails text.data, listMarkStart s = true) }

/-- Booleans produced by `List.any` agree with the decided existential. -/
theorem any_eq_decide (l : List (List Char)) (p : List Char → Bool) :
    l.any p = decide (∃ x ∈ l, p x = true) := by
  cases h : l.any p
  · rw [Bool.eq_iff_iff]
    simp only [decide_eq_true_eq]
    constructor
    · intro hfalse; cases hfalse
    · intro hex
      rw [← List.any_eq_true] at hex
      rw [h] at hex
      cases hex
  · rw [List.any_eq_true] at h
    simp [h]

/-- C6 counterexample, in three parts. On `" Hi."` the code's average
sentence length is 2 because `split(/\s+/)` contributes an empty boundary
fragment for the leading space, while the claim's non-empty word count
yields 1. On `"• x"` the code's hasList is false because the source's
mojibake class does not contain U+2022, while the claim says true; on
`"â x"` the opposite. On `"-\nx"` the code's hasList is true because the
regex's `\s` consumes the line terminator after the hyphen, while no line
starts with a bullet followed by a space. -/
theorem analyzeTextStructure_cex :
    ((analyzeTextStructure " Hi.").avgSentenceLength = 2 ∧
      (specStructure " Hi.").avgSentenceLength = 1) ∧
    ((analyzeTextStructure "• x").hasList = false ∧
      (specStructure "• x").hasList = true) ∧
    ((analyzeTextStructure "â x").hasList = true ∧
      (specStructure "â x").hasList = false) ∧
    ((analyzeTextStructure "-\nx").hasList = true ∧
      (specStructure "-\nx").hasList = false) := by decide

/-- C6 amended: `analyzeTextStructure` agrees everywhere with the reference
definition whose word total is the full length of the whitespace-run split
(including empty boundary fragments) and whose bullet test matches the
source's literal class characters at line-start positions of the raw text,
whitespace after the bullet included line terminators; all other components
are as the claim states them, and empty text yields the all-zero/false
record. -/
theorem analyzeTextStructure_matches_amended (text : String) :
    analyzeTextStructure text = specStructureAmended text := by
  unfold analyzeTextStructure specStructureAmended
  split
  · rfl
  · simp only [List.countP_eq_length_filter, any_eq_decide]

/-! ### extractKeyPhrases -/

/-- Tokens of `extractKeyPhrases`: lower-case (ASCII, which covers every
character the subsequent `\w` filter can keep), strip characters outside `\w`
and `\s`, split on whitespace runs, keep tokens longer than 3 characters. -/
def keyTokens (s : String) : List String :=
  ((splitRuns isWS ((s.data.map Char.toLower).filter
      (fun c => isWordChar c || isWS c))).map (fun w => String.mk w)).filter
    (fun w => w.length > 3)

/-- First occurrences of each word in order: the insertion order of the
frequency object's string keys. -/
def dedupFirst : List String → List String
  | [] => []
  | w :: ws => w :: (dedupFirst ws).filter (fun v => v != w)

/-- The frequency object `wordCount` as an association list in key insertion
order: each first-occurring word paired with its number of occurrences. -/
def buildFreq (l : List String) : List (String × Nat) :=
  (dedupFirst l).map (fun w => (w, l.count w))

/-- Numeric value of a digit string. -/
def digitsToNat (l : List Char) : Nat :=
  l.foldl (fun n c => 10 * n + (c.toNat - 48)) 0

/-- Keys that JavaScript objects enumerate first: canonical array indices,
i.e. decimal strings without leading zeros whose value is below 2^32 - 1. -/
def isArrayIndex (s : String) : Bool :=
  match s.data with
  | [] => false
  | c :: cs =>
    (c :: cs).all (fun d => '0' ≤ d && d ≤ '9') &&
    (c != '0' || cs.isEmpty) &&
    digitsToNat (c :: cs) < 4294967295

/-- Embedding of `Object.entries(wordCount)`: array-index keys first in
ascending numeric order, then the remaining string keys in insertion order. -/
def jsEntries (l : List (String × Nat)) : List (String × Nat) :=
  List.insertionSort (fun a b => digitsToNat a.1.data ≤ digitsToNat b.1.data)
      (l.filter (fun p => isArrayIndex p.1)) ++
    l.filter (fun p => !isArrayIndex p.1)

/-- Stop-word set of `extractKeyPhrases`. -/
def stopWords : List String :=
  ["this", "that", "with", "have", "will", "from", "they", "know",
   "want", "been", "good", "much", "some", "time", "very", "when",
   "come", "here", "just", "like", "long", "make", "many", "over",
   "such", "take", "than", "them", "well", "were", "what", "your"]

/-- Embedding of `extractKeyPhrases` (contentAnalyzer.js): tokenize, build the
frequency table, drop stop words and frequency-1 words, stable-sort by
descending count (the comparator `b[1] - a[1]` under a stable sort), take the
first ten words. -/
def extractKeyPhrases (s : String) : List String :=
  if s = "" then []
  else
    ((List.insertionSort (fun a b => b.2 ≤ a.2)
        ((jsEntries (buildFreq (keyTokens s))).filter
          (fun p => p.2 > 1 && !(stopWords.contains p.1)))).take 10).map Prod.fst

theorem mem_dedupFirst {l : List String} {w : String} (h : w ∈ dedupFirst l) : w ∈ l := by
  induction l with
  | nil => simp [dedupFirst] at h
  | cons a t ih =>
    simp only [dedupFirst] at h
    rcases List.mem_cons.mp h with h' | h'
    · exact h' ▸ List.mem_cons_self a t
    · exact List.mem_cons_of_mem a (ih (List.mem_filter.mp h').1)

theorem mem_buildFreq {l : List String} {p : String × Nat} (h : p ∈ buildFreq l) :
    p.1 ∈ l ∧ p.2 = l.count p.1 := by
  unfold buildFreq at h
  rcases List.mem_map.mp h with ⟨w, hw, heq⟩
  cases heq
  exact ⟨mem_dedupFirst hw, rfl⟩

theorem mem_jsEntries {l : List (String × Nat)} {p : String × Nat}
    (h : p ∈ jsEntries l) : p ∈ l := by
  unfold jsEntries at h
  rcases List.mem_append.mp h with h' | h'
  · rw [List.mem_insertionSort] at h'
    exact (List.mem_filter.mp h').1
  · exact (List.mem_filter.mp h').1

/-- C7: `extractKeyPhrases` returns at most ten words, never a stop word,
never a token of length at most three, never a word occurring exactly once in
the tokenized text, and the result is ordered by non-increasing frequency. -/
theorem extractKeyPhrases_props (text : String) :
    (extractKeyPhrases text).length ≤ 10 ∧
    (∀ w ∈ extractKeyPhrases text,
      w ∉ stopWords ∧ 3 < w.length ∧ (keyTokens text).count w ≠ 1) ∧
    (extractKeyPhrases text).Pairwise
      (fun w1 w2 => (keyTokens text).count w2 ≤ (keyTokens text).count w1) := by
  haveI : IsTotal (String × Nat) (fun a b : String × Nat => b.2 ≤ a.2) :=
    ⟨fun a b => le_total b.2 a.2⟩
  haveI : IsTrans (String × Nat) (fun a b : String × Nat => b.2 ≤ a.2) :=
    ⟨fun _ _ _ hab hbc => le_trans hbc hab⟩
  by_cases hs : text = ""
  · refine ⟨?_, ?_, ?_⟩ <;> simp [extractKeyPhrases, hs]
  · unfold extractKeyPhrases
    rw [if_neg hs]
    have hmementry : ∀ p : String × Nat,
        p ∈ (List.insertionSort (fun a b => b.2 ≤ a.2)
          ((jsEntries (buildFreq (keyTokens text))).filter
            (fun p => p.2 > 1 && !(stopWords.contains p.1)))).take 10 →
        p.1 ∈ keyTokens text ∧ p.2 = (keyTokens text).count p.1 ∧
        p.2 > 1 ∧ stopWords.contains p.1 = false := by
      intro p hp
      have hp' := (List.take_sublist 10 _).subset hp
      rw [List.mem_insertionSort] at hp'
      rw [List.mem_filter] at hp'
      obtain ⟨hpe, hcond⟩ := hp'
      rw [Bool.and_eq_true] at hcond
      obtain ⟨hgt, hstop⟩ := hcond
      have hbf := mem_buildFreq (mem_jsEntries hpe)
      refine ⟨hbf.1, hbf.2, ?_, ?_⟩
      · exact of_decide_eq_true hgt
      · rwa [Bool.not_eq_true'] at hstop
    refine ⟨?_, ?_, ?_⟩
    · rw [List.length_map, List.length_take]
      exact min_le_left _ _
    · intro w hw
      rcases List.mem_map.mp hw with ⟨p, hp, rfl⟩
      obtain ⟨htok, hcount, hgt, hstop⟩ := hmementry p hp
      refine ⟨?_, ?_, ?_⟩
      · intro hmem
        exact Bool.noConfusion ((List.elem_eq_true_of_mem hmem).symm.trans hstop)
      · unfold keyTokens at htok
        exact of_decide_eq_true (List.mem_filter.mp htok).2
      · omega
    · rw [List.pairwise_map]
      have hsort : List.Pairwise (fun a b : String × Nat => b.2 ≤ a.2)
          ((List.insertionSort (fun a b => b.2 ≤ a.2)
            ((jsEntries (buildFreq (keyTokens text))).filter
              (fun p => p.2 > 1 && !(stopWords.contains p.1)))).take 10) :=
        (List.sorted_insertionSort _ _).sublist (List.take_sublist 10 _)
      apply hsort.imp_of_mem
      intro a b ha hb hr
      rw [← (hmementry a ha).2.1, ← (hmementry b hb).2.1]
      exact hr

/-! ### MD5 -/

/-- UTF-8 encoding of one character, as byte values. -/
def utf8Encode (c : Char) : List Nat :=
  let n := c.toNat
  if n < 0x80 then [n]
  else if n < 0x800 then [0xC0 + n / 64, 0x80 + n % 64]
  else if n < 0x10000 then [0xE0 + n / 4096, 0x80 + n / 64 % 64, 0x80 + n % 64]
  else [0xF0 + n / 262144, 0x80 + n / 4096 % 64, 0x80 + n / 64 % 64, 0x80 + n % 64]

/-- UTF-8 bytes of a string (the encoding `hash.update` applies to the
serialized representation). -/
def strBytes (s : String) : List Nat := (s.data.map utf8Encode).flatten

/-- Round constants of MD5 (RFC 1321). -/
def md5K : List Nat :=
  [0xd76aa478, 0xe8c7b756, 0x242070db, 0xc1bdceee,
   0xf57c0faf, 0x4787c62a, 0xa8304613, 0xfd469501,
   0x698098d8, 0x8b44f7af, 0xffff5bb1, 0x895cd7be,
   0x6b901122, 0xfd987193, 0xa679438e, 0x49b40821,
   0xf61e2562, 0xc040b340, 0x265e5a51, 0xe9b6c7aa,
   0xd62f105d, 0x02441453, 0xd8a1e681, 0xe7d3fbc8,
   0x21e1cde6, 0xc33707d6, 0xf4d50d87, 0x455a14ed,
   0xa9e3e905, 0xfcefa3f8, 0x676f02d9, 0x8d2a4c8a,
   0xfffa3942, 0x8771f681, 0x6d9d6122, 0xfde5380c,
   0xa4beea44, 0x4bdecfa9, 0xf6bb4b60, 0xbebfbc70,
   0x289b7ec6, 0xeaa127fa, 0xd4ef3085, 0x04881d05,
   0xd9d4d039, 0xe6db99e5, 0x1fa27cf8, 0xc4ac5665,
   0xf4292244, 0x432aff97, 0xab9423a7, 0xfc93a039,
   0x655b59c3, 0x8f0ccc92, 0xffeff47d, 0x85845dd1,
   0x6fa87e4f, 0xfe2ce6e0, 0xa3014314, 0x4e0811a1,
   0xf7537e82, 0xbd3af235, 0x2ad7d2bb, 0xeb86d391]

/-- Per-round left-rotation amounts of MD5. -/
def md5S : List Nat :=
  [7, 12, 17, 22, 7, 12, 17, 22, 7, 12, 17, 22, 7, 12, 17, 22,
   5, 9, 14, 20, 5, 9, 14, 20, 5, 9, 14, 20, 5, 9, 14, 20,
   4, 11, 16, 23, 4, 11, 16, 23, 4, 11, 16, 23, 4, 11, 16, 23,
   6, 10, 15, 21, 6, 10, 15, 21, 6, 10, 15, 21, 6, 10, 15, 21]

/-- Left rotation of a 32-bit word: the shifted-out high bits have zero
overlap with the shifted-in low bits, so addition realizes the bitwise or. -/
def rotl32 (x n : Nat) : Nat := (x * 2 ^ n + x / 2 ^ (32 - n)) % 4294967296

/-- Bitwise complement of a 32-bit word (exact for `x < 2^32`). -/
def not32 (x : Nat) : Nat := 4294967295 - x

/-- One MD5 round applied to the state `(a, b, c, d)`. -/
def md5Step (m : List Nat) (st : Nat × Nat × Nat × Nat) (i : Nat) :
    Nat × Nat × Nat × Nat :=
  let a := st.1
  let b := st.2.1
  let c := st.2.2.1
  let d := st.2.2.2
  let f :=
    if i < 16 then (b &&& c) ||| (not32 b &&& d)
    else if i < 32 then (d &&& b) ||| (not32 d &&& c)
    else if i < 48 then b ^^^ c ^^^ d
    else c ^^^ (b ||| not32 d)
  let g :=
    if i < 16 then i
    else if i < 32 then (5 * i + 1) % 16
    else if i < 48 then (3 * i + 5) % 16
    else (7 * i) % 16
  let temp := (a + f + md5K.getD i 0 + m.getD g 0) % 4294967296
  (d, ((b + rotl32 temp (md5S.getD i 0)) % 4294967296, (b, c)))

/-- Little-endian 32-bit words of a byte list. -/
def bytesToWords : List Nat → List Nat
  | b0 :: b1 :: b2 :: b3 :: rest =>
    (b0 + 256 * b1 + 65536 * b2 + 16777216 * b3) :: bytesToWords rest
  | _ => []

/-- Processing of one 64-byte block. -/
def md5Block (st : Nat × Nat × Nat × Nat) (block : List Nat) :
    Nat × Nat × Nat × Nat :=
  let m := bytesToWords block
  let r := (List.range 64).foldl (md5Step m) st
  ((st.1 + r.1) % 4294967296, ((st.2.1 + r.2.1) % 4294967296,
    ((st.2.2.1 + r.2.2.1) % 4294967296, (st.2.2.2 + r.2.2.2) % 4294967296)))

/-- Split of the padded message into 64-byte blocks. -/
def chunk64 (l : List Nat) : List (List Nat) :=
  if hl : l = [] then [] else l.take 64 :: chunk64 (l.drop 64)
termination_by l.length
decreasing_by
  simp only [List.length_drop]
  have : 0 < l.length := List.length_pos.mpr hl
  omega

/-- MD5 padding: append 0x80, zeros up to 56 mod 64, then the 64-bit
little-endian bit length. -/
def md5Pad (msg : List Nat) : List Nat :=
  msg ++ 0x80 :: List.replicate ((120 - (msg.length + 1) % 64) % 64) 0 ++
    (List.range 8).map (fun i => msg.length * 8 / 2 ^ (8 * i) % 256)

/-- Little-endian bytes of one 32-bit word. -/
def wordLEBytes (w : Nat) : List Nat :=
  [w % 256, w / 256 % 256, w / 65536 % 256, w / 16777216 % 256]

/-- The sixteen digest bytes of MD5. -/
def md5Digest (msg : List Nat) : List Nat :=
  let st := (chunk64 (md5Pad msg)).foldl md5Block
    (0x67452301, (0xefcdab89, (0x98badcfe, 0x10325476)))
  wordLEBytes st.1 ++ wordLEBytes st.2.1 ++ wordLEBytes st.2.2.1 ++ wordLEBytes st.2.2.2

/-- Lower-case hex digit. -/
def hexDigit (n : Nat) : Char :=
  if n < 10 then Char.ofNat (48 + n) else Char.ofNat (87 + n)

/-- Two lower-case hex digits of one byte. -/
def byteHex (b : Nat) : List Char := [hexDigit (b / 16 % 16), hexDigit (b % 16)]

/-- Lower-case hex digest string, as produced by `digest('hex')`. -/
def md5Hex (s : String) : String :=
  String.mk ((md5Digest (strBytes s)).map byteHex).flatten

theorem md5Digest_length (msg : List Nat) : (md5Digest msg).length = 16 := by
  unfold md5Digest wordLEBytes
  simp

/-- Every MD5 hex digest has 32 characters. -/
theorem md5Hex_length (s : String) : (md5Hex s).length = 32 := by
  show (((md5Digest (strBytes s)).map byteHex).flatten).length = 32
  rw [List.length_flatten, List.map_map]
  have h1 : (md5Digest (strBytes s)).map (List.length ∘ byteHex) =
      (md5Digest (strBytes s)).map (fun _ => 2) :=
    List.map_congr_left (fun b _ => rfl)
  rw [h1, List.map_const', List.sum_replicate, md5Digest_length]
  decide

/-! ### The data model and the cache key -/

/-- An image record of the extracted page content. -/
structure Image where
  src : Option String
  alt : Option String
  title : Option String
  deriving DecidableEq, Repr

/-- A link record of the extracted page content. -/
structure Link where
  url : Option String
  text : Option String
  deriving DecidableEq, Repr

/-- The `content` object of an analysis request as produced by the browser
extension; absent fields are `none`. -/
structure Content where
  text : Option String
  wordCount : Option Nat
  images : Option (List Image)
  links : Option (List Link)
  deriving DecidableEq, Repr

/-- JSON string escaping as performed by `JSON.stringify`. -/
def escChar (c : Char) : List Char :=
  if c = '"' then ['\\', '"']
  else if c = '\\' then ['\\', '\\']
  else if c = '\x08' then ['\\', 'b']
  else if c = '\x0c' then ['\\', 'f']
  else if c = '\n' then ['\\', 'n']
  else if c = '\r' then ['\\', 'r']
  else if c = '\t' then ['\\', 't']
  else if c.toNat < 32 then
    ['\\', 'u', '0', '0', hexDigit (c.toNat / 16), hexDigit (c.toNat % 16)]
  else [c]

/-- A JSON string literal. -/
def jsonStr (s : String) : String :=
  String.mk ('"' :: (s.data.map escChar).flatten ++ ['"'])

/-- The canonical representation serialized by `generateCacheKey`: the object
with keys `url`, `text` (first 1000 characters) and `wordCount` in that
order. `JSON.stringify` omits keys holding `undefined`, so an absent `text`
or `wordCount` contributes nothing. -/
def contentString (url : String) (content : Content) : String :=
  "\x7b\"url\":" ++ jsonStr url ++
    (match content.text with
     | none => ""
     | some t => ",\"text\":" ++ jsonStr (String.mk (t.data.take 1000))) ++
    (match content.wordCount with
     | none => ""
     | some n => ",\"wordCount\":" ++ toString n) ++ "\x7d"

/-- Embedding of `generateCacheKey` (contentAnalyzer.js): the MD5 hex digest
of the canonical representation. -/
def generateCacheKey (url : String) (content : Content) : String :=
  md5Hex (contentString url content)

/-- Substring test on character lists. -/
def hasSubstr (needle : List Char) : List Char → Bool
  | [] => needle.isEmpty
  | c :: rest => needle.isPrefixOf (c :: rest) || hasSubstr needle rest

/-- C3 counterexample: with `text` absent, `JSON.stringify` omits the `text`
key entirely, so the serialized canonical representation contains no
`"undefined"` token at all. -/
theorem generateCacheKey_undefined_cex :
    (⟨none, some 5, none, none⟩ : Content).text = none ∧
    hasSubstr "undefined".data
      (contentString "a" ⟨none, some 5, none, none⟩).data = false ∧
    contentString "a" ⟨none, some 5, none, none⟩ =
      "\x7b\"url\":\"a\",\"wordCount\":5\x7d" :=
  ⟨rfl, by decide, by decide⟩

/-- C3 amended: `generateCacheKey` depends only on the url, the text and the
word count (so it is deterministic, and total when `text` is absent), every
digest has exactly 32 hex characters, and in the absent-text case the
serialized canonical representation simply omits the `text` key rather than
containing an `"undefined"` token. -/
theorem generateCacheKey_spec (url : String) (c1 c2 : Content)
    (ht : c1.text = c2.text) (hw : c1.wordCount = c2.wordCount) :
    generateCacheKey url c1 = generateCacheKey url c2 ∧
    (generateCacheKey url c1).length = 32 ∧
    (c1.text = none →
      contentString url c1 =
        "\x7b\"url\":" ++ jsonStr url ++
          (match c1.wordCount with
           | none => ""
           | some n => ",\"wordCount\":" ++ toString n) ++ "\x7d") := by
  refine ⟨?_, md5Hex_length _, ?_⟩
  · unfold generateCacheKey contentString
    rw [ht, hw]
  · intro hnone
    unfold contentString
    rw [hnone]
    simp

/-- C3 amended witness: the theorem applied to two concrete contents with
absent text that differ in their (key-irrelevant) image list. -/
theorem generateCacheKey_spec_witness :
    generateCacheKey "u" ⟨none, some 7, none, none⟩ =
        generateCacheKey "u" ⟨none, some 7, some [], none⟩ ∧
    (generateCacheKey "u" ⟨none, some 7, none, none⟩).length = 32 ∧
    ((⟨none, some 7, none, none⟩ : Content).text = none →
      contentString "u" ⟨none, some 7, none, none⟩ =
        "\x7b\"url\":" ++ jsonStr "u" ++
          (match (⟨none, some 7, none, none⟩ : Content).wordCount with
           | none => ""
           | some n => ",\"wordCount\":" ++ toString n) ++ "\x7d") :=
  generateCacheKey_spec "u" ⟨none, some 7, none, none⟩ ⟨none, some 7, some [], none⟩ rfl rfl

/-! ### Dates and content freshness -/

/-- Page metadata: an open string-to-string mapping, modelled as the
association list of its (distinct-keyed) entries. -/
abbrev Metadata := List (String × String)

/-- Property read `metadata[key]` on a JavaScript object. -/
def mdLookup (m : Metadata) (k : String) : Option String :=
  (m.find? (fun p => p.1 == k)).map Prod.snd

/-- Optional-chaining read `metadata?.[key]`. -/
def optLookup (m : Option Metadata) (k : String) : Option String :=
  match m with
  | none => none
  | some l => mdLookup l k

/-- JavaScript truthiness of an optional string: present and non-empty. -/
def truthyStr : Option String → Bool
  | none => false
  | some v => v != ""

/-- The JavaScript `a || b` on optional string values: `a` when truthy,
otherwise `b`. -/
def jsOr (a b : Option String) : Option String := if truthyStr a then a else b

/-- Days since 1970-01-01 of a civil date (Howard Hinnant's algorithm). -/
def daysFromCivil (y m d : Int) : Int :=
  let y2 := y - (if m ≤ 2 then 1 else 0)
  let era := Int.fdiv y2 400
  let yoe := y2 - era * 400
  let doy := (153 * (m + (if 2 < m then -3 else 9)) + 2) / 5 + d - 1
  let doe := yoe * 365 + yoe / 4 - yoe / 100 + doy
  era * 146097 + doe - 719468

/-- Gregorian leap-year test. -/
def isLeapYear (y : Nat) : Bool := (y % 4 = 0 && y % 100 != 0) || y % 400 = 0

/-- Day count of a month (1-based). -/
def daysInMonth (y m : Nat) : Nat :=
  if m = 2 then (if isLeapYear y then 29 else 28)
  else if m = 4 || m = 6 || m = 9 || m = 11 then 30
  else 31

/-- Embedding of the host `new Date(string)` parser for the ISO `YYYY-MM-DD`
date-only form (interpreted as UTC midnight), the format in which page
metadata carries publish dates; any other string is treated as an Invalid
Date. Returns milliseconds since the Unix epoch. -/
def jsParseDate (s : String) : Option Int :=
  match s.data with
  | [y1, y2, y3, y4, '-', m1, m2, '-', d1, d2] =>
    if [y1, y2, y3, y4, m1, m2, d1, d2].all Char.isDigit then
      let y := digitsToNat [y1, y2, y3, y4]
      let m := digitsToNat [m1, m2]
      let d := digitsToNat [d1, d2]
      if 1 ≤ m && m ≤ 12 && 1 ≤ d && d ≤ daysInMonth y m then
        some (daysFromCivil y m d * 86400000)
      else none
    else none
  | _ => none

/-- Civil date of a day count since the epoch (inverse of
`daysFromCivil`). -/
def civilFromDays (z0 : Int) : Int × Int × Int :=
  let z := z0 + 719468
  let era := Int.fdiv z 146097
  let doe := z - era * 146097
  let yoe := (doe - doe / 1460 + doe / 36524 - doe / 146096) / 365
  let y := yoe + era * 400
  let doy := doe - (365 * yoe + yoe / 4 - yoe / 100)
  let mp := (5 * doy + 2) / 153
  let d := doy - (153 * mp + 2) / 5 + 1
  let m := mp + (if mp < 10 then 3 else -9)
  (y + (if m ≤ 2 then 1 else 0), (m, d))

/-- Zero-padded decimal representation of a non-negative number. -/
def padNum (width : Nat) (n : Int) : String :=
  String.mk (List.replicate (width - (toString n.toNat).length) '0') ++ toString n.toNat

/-- Embedding of `Date.prototype.toISOString`. -/
def isoOfMs (ms : Int) : String :=
  let days := Int.fdiv ms 86400000
  let msod := (ms - 86400000 * days).toNat
  let ymd := civilFromDays days
  padNum 4 ymd.1 ++ "-" ++ padNum 2 ymd.2.1 ++ "-" ++ padNum 2 ymd.2.2 ++
    "T" ++ padNum 2 (msod / 3600000) ++ ":" ++ padNum 2 (msod / 60000 % 60) ++
    ":" ++ padNum 2 (msod / 1000 % 60) ++ "." ++ padNum 3 (msod % 1000) ++ "Z"

/-- Result record of `analyzeContentFreshness`. -/
structure Freshness where
  hasPublishDate : Bool
  publishDate : Option String
  daysOld : Option Int
  freshness : String
  deriving DecidableEq, Repr

/-- Freshness bucket of an age in days. -/
def freshnessBucket (daysDiff : Int) : String :=
  if daysDiff ≤ 7 then "Very Fresh"
  else if daysDiff ≤ 30 then "Fresh"
  else if daysDiff ≤ 90 then "Recent"
  else if daysDiff ≤ 365 then "Somewhat Old"
  else "Old"

/-- Embedding of `analyzeContentFreshness` (contentAnalyzer.js), with the
current time in epoch milliseconds passed explicitly. The publish date is the
JavaScript `||` chain over the three metadata keys (first *truthy* value); a
string `new Date` cannot parse makes `toISOString` throw inside the `try`,
landing in the catch branch that reports no publish date. -/
def analyzeContentFreshness (now : Int) (metadata : Option Metadata) : Freshness :=
  match jsOr (jsOr (optLookup metadata "article:published_time")
      (optLookup metadata "datePublished")) (optLookup metadata "date") with
  | none => ⟨false, none, none, "Unknown"⟩
  | some pd =>
    if pd = "" then ⟨false, none, none, "Unknown"⟩
    else
      match jsParseDate pd with
      | none => ⟨false, none, none, "Unknown"⟩
      | some ms =>
        ⟨true, some (isoOfMs ms), some (Int.fdiv (now - ms) 86400000),
          freshnessBucket (Int.fdiv (now - ms) 86400000)⟩

/-- Freshness reference definition from the claim's words: the first
*present* key among the three wins, even when its value is the empty
string. -/
def specFreshness (now : Int) (metadata : Option Metadata) : Freshness :=
  match (match optLookup metadata "article:published_time" with
         | some v => some v
         | none => match optLookup metadata "datePublished" with
           | some v => some v
           | none => optLookup metadata "date") with
  | none => ⟨false, none, none, "Unknown"⟩
  | some pd =>
    match jsParseDate pd with
    | none => ⟨false, none, none, "Unknown"⟩
    | some ms =>
      ⟨true, some (isoOfMs ms), some (Int.fdiv (now - ms) 86400000),
        freshnessBucket (Int.fdiv (now - ms) 86400000)⟩

/-- Freshness reference definition amended only in the key choice: the first
key holding a truthy (present and non-empty) value wins. -/
def specFreshnessAmended (now : Int) (metadata : Option Metadata) : Freshness :=
  match ([optLookup metadata "article:published_time",
          optLookup metadata "datePublished",
          optLookup metadata "date"].findSome? (fun v =>
            match v with
            | some s => if s = "" then none else some s
            | none => none)) with
  | none => ⟨false, none, none, "Unknown"⟩
  | some pd =>
    match jsParseDate pd with
    | none => ⟨false, none, none, "Unknown"⟩
    | some ms =>
      ⟨true, some (isoOfMs ms), some (Int.fdiv (now - ms) 86400000),
        freshnessBucket (Int.fdiv (now - ms) 86400000)⟩

/-- C9 counterexample: with `article:published_time` present but empty and a
valid `datePublished`, the `||` chain skips the falsy empty string and the
code reports a publish date, while the first-present-wins reading of the
claim returns no publish date. -/
theorem analyzeContentFreshness_cex :
    analyzeContentFreshness 1600000000000
        (some [("article:published_time", ""), ("datePublished", "2020-01-01")]) ≠
      specFreshness 1600000000000
        (some [("article:published_time", ""), ("datePublished", "2020-01-01")]) ∧
    (analyzeContentFreshness 1600000000000
        (some [("article:published_time", ""), ("datePublished", "2020-01-01")])).hasPublishDate
      = true ∧
    (specFreshness 1600000000000
        (some [("article:published_time", ""), ("datePublished", "2020-01-01")])).hasPublishDate
      = false :=
  ⟨by decide, by decide, by decide⟩

/-- C9 amended: `analyzeContentFreshness` is total and agrees everywhere with
the reference definition in which the first truthy (present and non-empty)
key value wins: if no key holds a truthy parsable date the result is the
no-publish-date record with freshness Unknown, otherwise the age in days is
the floor of the elapsed time and the freshness is its bucket. -/
theorem analyzeContentFreshness_matches_amended (now : Int) (metadata : Option Metadata) :
    analyzeContentFreshness now metadata = specFreshnessAmended now metadata := by
  unfold analyzeContentFreshness specFreshnessAmended
  cases h1 : optLookup metadata "article:published_time" with
  | none =>
    cases h2 : optLookup metadata "datePublished" with
    | none =>
      cases h3 : optLookup metadata "date" with
      | none => rfl
      | some v3 =>
        by_cases hv3 : v3 = "" <;> simp [jsOr, truthyStr, hv3, List.findSome?]
    | some v2 =>
      by_cases hv2 : v2 = ""
      · cases h3 : optLookup metadata "date" with
        | none => simp [jsOr, truthyStr, hv2, List.findSome?]
        | some v3 =>
          by_cases hv3 : v3 = "" <;> simp [jsOr, truthyStr, hv2, hv3, List.findSome?]
      · simp [jsOr, truthyStr, hv2, List.findSome?]
  | some v1 =>
    by_cases hv1 : v1 = ""
    · cases h2 : optLookup metadata "datePublished" with
      | none =>
        cases h3 : optLookup metadata "date" with
        | none => simp [jsOr, truthyStr, hv1, List.findSome?]
        | some v3 =>
          by_cases hv3 : v3 = "" <;> simp [jsOr, truthyStr, hv1, hv3, List.findSome?]
      | some v2 =>
        by_cases hv2 : v2 = ""
        · cases h3 : optLookup metadata "date" with
          | none => simp [jsOr, truthyStr, hv1, hv2, List.findSome?]
          | some v3 =>
            by_cases hv3 : v3 = "" <;> simp [jsOr, truthyStr, hv1, hv2, hv3, List.findSome?]
        · simp [jsOr, truthyStr, hv1, hv2, List.findSome?]
    · simp [jsOr, truthyStr, hv1, List.findSome?]

/-! ### Technical metrics, readability, SEO, accessibility -/

/-- Embedding of `countSyllables` (contentAnalyzer.js): lower-case the word,
short words count one syllable, otherwise count transitions into a vowel
group, decrement for a trailing `e`, floor at one. -/
def countSyllables (word : String) : Nat :=
  let w := word.data.map Char.toLower
  if w.length ≤ 3 then 1
  else
    let vowels := ['a', 'e', 'i', 'o', 'u', 'y']
    let count := (w.foldl (fun st c =>
      let isV := vowels.contains c
      ((if isV && !st.2 then st.1 + 1 else st.1), isV)) ((0 : Nat), false)).1
    max 1 (if w.getLast? = some 'e' then count - 1 else count)

/-- Embedding of `calculateReadabilityScore` (contentAnalyzer.js). The
JavaScript float arithmetic is modelled exactly in rational arithmetic. -/
def calculateReadabilityScore (text : String) : String :=
  if text = "" then "Unknown"
  else
    let sentences := (splitRuns isSentenceEnd text.data).filter (fun c => !(trimWS c).isEmpty)
    let words := (splitRuns isWS text.data).filter (fun w => !w.isEmpty)
    if sentences.length = 0 || words.length = 0 then "Unknown"
    else
      let syllables := (words.map (fun w => countSyllables (String.mk w))).sum
      let score : Rat := 206835 / 1000 -
        (1015 / 1000) * ((words.length : Rat) / (sentences.length : Rat)) -
        (846 / 10) * ((syllables : Rat) / (words.length : Rat))
      if 90 ≤ score then "Very Easy"
      else if 80 ≤ score then "Easy"
      else if 70 ≤ score then "Fairly Easy"
      else if 60 ≤ score then "Standard"
      else if 50 ≤ score then "Fairly Difficult"
      else if 30 ≤ score then "Difficult"
      else "Very Difficult"

/-- Result record of `calculateTechnicalMetrics`. -/
structure TechnicalMetrics where
  wordCount : Nat
  characterCount : Nat
  averageWordLength : Nat
  imageCount : Nat
  linkCount : Nat
  readabilityScore : String
  deriving DecidableEq, Repr

/-- Embedding of `calculateTechnicalMetrics` (contentAnalyzer.js). -/
def calculateTechnicalMetrics (content : Content) : TechnicalMetrics :=
  let text := content.text.getD ""
  let words := (splitRuns isWS text.data).filter (fun w => !w.isEmpty)
  { wordCount := words.length
    characterCount := text.length
    averageWordLength :=
      if 0 < words.length then jsRoundDiv (words.map List.length).sum words.length
      else 0
    imageCount := (content.images.getD []).length
    linkCount := (content.links.getD []).length
    readabilityScore := calculateReadabilityScore text }

/-- The original request data handed to the enricher. -/
structure OriginalData where
  url : String
  title : Option String
  content : Content
  metadata : Option Metadata
  deriving DecidableEq, Repr

/-- Result record of `analyzeSEO`. -/
structure SeoInsights where
  titleLength : Nat
  titleOptimal : Bool
  hasMetaDescription : Bool
  metaDescriptionLength : Nat
  metaDescriptionOptimal : Bool
  hasHeadings : Bool
  imageAltTextRatio : Rat
  deriving DecidableEq, Repr

/-- Embedding of `analyzeSEO` (contentAnalyzer.js). -/
def analyzeSEO (data : OriginalData) : SeoInsights :=
  let title := data.title.getD ""
  let desc := optLookup data.metadata "description"
  { titleLength := title.length
    titleOptimal := 30 ≤ title.length && title.length ≤ 60
    hasMetaDescription := truthyStr desc
    metaDescriptionLength := (desc.getD "").length
    metaDescriptionOptimal :=
      truthyStr desc && 120 ≤ (desc.getD "").length && (desc.getD "").length ≤ 160
    hasHeadings :=
      match data.content.text with
      | none => false
      | some t => hasSubstr "H1:".data t.data || hasSubstr "H2:".data t.data
    imageAltTextRatio :=
      match data.content.images with
      | some imgs =>
        if 0 < imgs.length then
          ((imgs.filter (fun img => truthyStr img.alt)).length : Rat) / (imgs.length : Rat)
        else 0
      | none => 0 }

/-- Result record of `analyzeAccessibility`. -/
structure Accessibility where
  hasImageAltText : Bool
  imageAltTextCoverage : Nat
  hasDescriptiveLinks : Bool
  estimatedReadingLevel : String
  deriving DecidableEq, Repr

/-- Embedding of `analyzeAccessibility` (contentAnalyzer.js). -/
def analyzeAccessibility (content : Content) : Accessibility :=
  { hasImageAltText :=
      match content.images with
      | none => false
      | some imgs => imgs.any (fun img => truthyStr img.alt)
    imageAltTextCoverage :=
      match content.images with
      | some imgs =>
        if 0 < imgs.length then
          jsRoundDiv (100 * (imgs.filter (fun img => truthyStr img.alt)).length) imgs.length
        else 100
      | none => 100
    hasDescriptiveLinks :=
      match content.links with
      | none => false
      | some links => links.any (fun link =>
          match link.text with
          | none => false
          | some t => t != "" && 5 < t.length &&
              !(["click here", "read more", "more"].contains
                (String.mk (t.data.map Char.toLower))))
    estimatedReadingLevel := calculateReadabilityScore (content.text.getD "") }

/-! ### Enhancement and the confidence score -/

/-- The opaque semi-structured analysis object returned by the AI
collaborator, modelled as an open string-to-string mapping. -/
structure AiAnalysis where
  fields : List (String × String)
  deriving DecidableEq, Repr

/-- The enriched analysis: the shallow-copied AI fields plus the locally
computed enrichment fields, which shadow AI fields of the same name. A `none`
reading time means the enricher left whatever the AI object carried. -/
structure EnhancedAnalysis where
  ai : AiAnalysis
  technicalMetrics : TechnicalMetrics
  seoInsights : SeoInsights
  accessibility : Accessibility
  contentFreshness : Freshness
  readingTime : Option String
  confidenceScore : Int
  deriving DecidableEq, Repr

/-- The JavaScript guard `originalData.metadata &&
Object.keys(originalData.metadata).length > 3`. -/
def manyMetaKeys : Option Metadata → Bool
  | none => false
  | some m => 3 < m.length

/-- Embedding of `calculateConfidenceScore` (contentAnalyzer.js). -/
def calculateConfidenceScore (analysis : EnhancedAnalysis)
    (originalData : OriginalData) : Int :=
  let wordCount := originalData.content.wordCount.getD 0
  let s1 : Int := 50 +
    (if 500 < wordCount then 20 else if 200 < wordCount then 10
     else if wordCount < 50 then -20 else 0)
  let s2 := s1 + (if manyMetaKeys originalData.metadata then 10 else 0)
  let s3 := s2 + (if 0 < analysis.technicalMetrics.imageCount then 5 else 0)
  let s4 := s3 + (if 0 < analysis.technicalMetrics.linkCount then 5 else 0)
  let s5 := s4 + (if 10000 < wordCount then -10 else 0)
  max 0 (min 100 s5)

/-- Embedding of `enhanceAnalysis` (contentAnalyzer.js), with the current
time (used by the freshness analysis) passed explicitly. `readingTime` is
recomputed only for a truthy original word count, and `confidenceScore` is
computed from the record after all other enrichment fields are in place. -/
def enhanceAnalysis (now : Int) (aiAnalysis : AiAnalysis)
    (originalData : OriginalData) : EnhancedAnalysis :=
  let e0 : EnhancedAnalysis :=
    { ai := aiAnalysis
      technicalMetrics := calculateTechnicalMetrics originalData.content
      seoInsights := analyzeSEO originalData
      accessibility := analyzeAccessibility originalData.content
      contentFreshness := analyzeContentFreshness now originalData.metadata
      readingTime :=
        match originalData.content.wordCount with
        | none => none
        | some n => if n = 0 then none else some (calculateReadingTime n)
      confidenceScore := 0 }
  { e0 with confidenceScore := calculateConfidenceScore e0 originalData }

/-- Confidence-score reference formula written from the claim's words: base
50, the word-count adjustments, +10 for more than three metadata keys, +5
each for a positive image and link count, -10 for more than 10000 words,
clamped to [0, 100]. -/
def specConfidence (d : OriginalData) : Int :=
  let wc := d.content.wordCount.getD 0
  max 0 (min 100 (50 +
    (if 500 < wc then 20 else if 200 < wc then 10 else if wc < 50 then -20 else 0) +
    (if 3 < (match d.metadata with | none => 0 | some m => m.length) then 10 else 0) +
    (if 0 < (d.content.images.getD []).length then 5 else 0) +
    (if 0 < (d.content.links.getD []).length then 5 else 0) +
    (if 10000 < wc then -10 else 0)))

/-- C8: the confidence score produced by enhancement equals the claim's
formula and is an integer in [0, 100] for every input, however extreme. -/
theorem confidenceScore_formula_and_range (now : Int) (ai : AiAnalysis)
    (d : OriginalData) :
    (enhanceAnalysis now ai d).confidenceScore = specConfidence d ∧
    0 ≤ (enhanceAnalysis now ai d).confidenceScore ∧
    (enhanceAnalysis now ai d).confidenceScore ≤ 100 := by
  have heq : (enhanceAnalysis now ai d).confidenceScore = specConfidence d := by
    unfold enhanceAnalysis calculateConfidenceScore calculateTechnicalMetrics
      specConfidence manyMetaKeys
    cases d.metadata <;> simp
  refine ⟨heq, ?_, ?_⟩ <;> rw [heq] <;> unfold specConfidence
  · exact le_max_left 0 _
  · exact max_le (by norm_num) (min_le_left 100 _)

/-- C10: the confidence score is independent of whatever the AI collaborator
returned; enhancing the same original data with two different AI analyses
yields the same score. -/
theorem confidenceScore_noninterference (now : Int) (a1 a2 : AiAnalysis)
    (d : OriginalData) :
    (enhanceAnalysis now a1 d).confidenceScore =
      (enhanceAnalysis now a2 d).confidenceScore := rfl

/-! ### The analyze route: cache and orchestration -/

/-- The analysis cache: a list of (key, stored value, expiry timestamp in
epoch milliseconds) slots with distinct keys. -/
abbrev Cache := List (String × EnhancedAnalysis × Int)

/-- Embedding of `NodeCache.get` with lazy expiry: an entry whose expiry
time has passed is treated as absent. -/
def cacheGet (cache : Cache) (key : String) (now : Int) : Option EnhancedAnalysis :=
  match cache.find? (fun e => e.1 == key) with
  | some e => if now ≤ e.2.2 then some e.2.1 else none
  | none => none

/-- Embedding of `NodeCache.set`: stores under the key, replacing any
previous entry. -/
def cacheSet (cache : Cache) (key : String) (v : EnhancedAnalysis)
    (expiresAt : Int) : Cache :=
  (key, (v, expiresAt)) :: cache.filter (fun e => e.1 != key)

/-- A JavaScript error as inspected by the route's catch branch. -/
structure JsError where
  name : String
  code : Option String
  deriving DecidableEq, Repr

/-- The analysis request after validation. -/
structure Request where
  url : String
  title : Option String
  content : Content
  metadata : Option Metadata
  deriving DecidableEq, Repr

/-- The preprocessed content sent to the AI collaborator. The source names
the last field `structure`, a reserved word here. -/
structure ProcessedContent where
  text : String
  wordCount : Nat
  images : List Image
  links : List Link
  estimatedReadingTime : String
  keyPhrases : List String
  textStructure : StructureStats
  deriving DecidableEq, Repr

/-- Embedding of `preprocessContent` (contentAnalyzer.js). -/
def preprocessContent (content : Content) (_metadata : Option Metadata) :
    ProcessedContent :=
  let text := cleanText (content.text.getD "")
  { text := text
    wordCount := content.wordCount.getD 0
    images := content.images.getD []
    links := content.links.getD []
    estimatedReadingTime := calculateReadingTime (content.wordCount.getD 0)
    keyPhrases := extractKeyPhrases text
    textStructure := analyzeTextStructure text }

/-- The JSON response of `POST /api/analyze`: a success payload with the
`cached` flag and a fresh timestamp, or an error status with its label. -/
inductive AnalyzeResponse where
  | ok (value : EnhancedAnalysis) (cached : Bool) (timestamp : String)
  | err (status : Nat) (error : String)
  deriving DecidableEq, Repr

/-- Outcome of one handler run: the response, the cache afterwards, and how
often the AI collaborator was invoked. -/
structure AnalyzeOutcome where
  response : AnalyzeResponse
  cache : Cache
  aiCalls : Nat

/-- The route's catch branch: Anthropic provider errors and the two network
error codes map to 503 responses, anything else to the generic 500. -/
def errorResponse (e : JsError) : AnalyzeResponse :=
  if e.name = "AnthropicError" then .err 503 "AI Service Error"
  else if e.code = some "ENOTFOUND" || e.code = some "ECONNREFUSED" then
    .err 503 "Service Unavailable"
  else .err 500 "Analysis Failed"

/-- Embedding of the `POST /api/analyze` handler: compute the cache key; on
a hit answer the stored value with `cached: true` and a fresh timestamp; on
a miss preprocess, await the AI collaborator exactly once (its would-be
result is the explicit `aiResult` input), enhance, store with the one-hour
default TTL and answer with `cached: false`; a failure of the awaited call
lands in the catch branch, stores nothing and maps to its typed error
response. -/
def analyze (cache : Cache) (now : Int) (req : Request)
    (aiResult : Except JsError AiAnalysis) : AnalyzeOutcome :=
  let cacheKey := generateCacheKey req.url req.content
  match cacheGet cache cacheKey now with
  | some cachedResult =>
    { response := .ok cachedResult true (isoOfMs now), cache := cache, aiCalls := 0 }
  | none =>
    let _processed := preprocessContent req.content req.metadata
    match aiResult with
    | .error e => { response := errorResponse e, cache := cache, aiCalls := 1 }
    | .ok aiAnalysis =>
      let finalAnalysis := enhanceAnalysis now aiAnalysis
        { url := req.url, title := req.title, content := req.content,
          metadata := req.metadata }
      { response := .ok finalAnalysis false (isoOfMs now)
        cache := cacheSet cache cacheKey finalAnalysis (now + 3600000)
        aiCalls := 1 }

/-- Reading a freshly stored key back before its expiry yields the stored
value. -/
theorem cacheGet_cacheSet_same (cache : Cache) (key : String)
    (v : EnhancedAnalysis) (expiresAt now : Int) (h : now ≤ expiresAt) :
    cacheGet (cacheSet cache key v expiresAt) key now = some v := by
  unfold cacheGet cacheSet
  rw [List.find?_cons_of_pos _ (by simp)]
  simp [h]

/-- C1: starting from the empty cache, the first call returns the enhanced
analysis with `cached = false` after exactly one AI invocation and stores
it; a second call before the TTL expires with the same url and content
(title and metadata may differ, and the collaborator's would-be answer is
arbitrary) returns the same stored value with `cached = true` and a fresh
timestamp, with zero AI invocations. -/
theorem analyze_two_calls_cache (req : Request) (title2 : Option String)
    (meta2 : Option Metadata) (now1 now2 : Int) (ai1 : AiAnalysis)
    (ai2 : Except JsError AiAnalysis) (httl : now2 ≤ now1 + 3600000) :
    (analyze [] now1 req (.ok ai1)).aiCalls = 1 ∧
    (analyze [] now1 req (.ok ai1)).response =
      .ok (enhanceAnalysis now1 ai1
        ⟨req.url, req.title, req.content, req.metadata⟩) false (isoOfMs now1) ∧
    (analyze (analyze [] now1 req (.ok ai1)).cache now2
        ⟨req.url, title2, req.content, meta2⟩ ai2).aiCalls = 0 ∧
    (analyze (analyze [] now1 req (.ok ai1)).cache now2
        ⟨req.url, title2, req.content, meta2⟩ ai2).response =
      .ok (enhanceAnalysis now1 ai1
        ⟨req.url, req.title, req.content, req.metadata⟩) true (isoOfMs now2) := by
  have hkv : (analyze [] now1 req (.ok ai1)).cache =
      cacheSet [] (generateCacheKey req.url req.content)
        (enhanceAnalysis now1 ai1 ⟨req.url, req.title, req.content, req.metadata⟩)
        (now1 + 3600000) := rfl
  have h2 : analyze (analyze [] now1 req (.ok ai1)).cache now2
      ⟨req.url, title2, req.content, meta2⟩ ai2 =
      { response := .ok (enhanceAnalysis now1 ai1
          ⟨req.url, req.title, req.content, req.metadata⟩) true (isoOfMs now2)
        cache := (analyze [] now1 req (.ok ai1)).cache
        aiCalls := 0 } := by
    rw [hkv]
    have hget := cacheGet_cacheSet_same []
      (generateCacheKey req.url req.content)
      (enhanceAnalysis now1 ai1 ⟨req.url, req.title, req.content, req.metadata⟩)
      (now1 + 3600000) now2 httl
    simp only [analyze]
    rw [hget]
  exact ⟨rfl, rfl, congrArg AnalyzeOutcome.aiCalls h2,
    congrArg AnalyzeOutcome.response h2⟩

/-- C1 witness: the two-call theorem applied to a concrete request, with the
second call one second later and a failing collaborator that is never
consulted. -/
theorem analyze_two_calls_cache_witness :
    (analyze [] 0 ⟨"https://x", some "T", ⟨some "hello world", some 3, none, none⟩, none⟩
        (.ok ⟨[("summary", "ok")]⟩)).aiCalls = 1 ∧
    (analyze [] 0 ⟨"https://x", some "T", ⟨some "hello world", some 3, none, none⟩, none⟩
        (.ok ⟨[("summary", "ok")]⟩)).response =
      .ok (enhanceAnalysis 0 ⟨[("summary", "ok")]⟩
        ⟨"https://x", some "T", ⟨some "hello world", some 3, none, none⟩, none⟩)
        false (isoOfMs 0) ∧
    (analyze (analyze [] 0
        ⟨"https://x", some "T", ⟨some "hello world", some 3, none, none⟩, none⟩
        (.ok ⟨[("summary", "ok")]⟩)).cache 1000
        ⟨"https://x", none, ⟨some "hello world", some 3, none, none⟩, none⟩
        (.error ⟨"AnthropicError", none⟩)).aiCalls = 0 ∧
    (analyze (analyze [] 0
        ⟨"https://x", some "T", ⟨some "hello world", some 3, none, none⟩, none⟩
        (.ok ⟨[("summary", "ok")]⟩)).cache 1000
        ⟨"https://x", none, ⟨some "hello world", some 3, none, none⟩, none⟩
        (.error ⟨"AnthropicError", none⟩)).response =
      .ok (enhanceAnalysis 0 ⟨[("summary", "ok")]⟩
        ⟨"https://x", some "T", ⟨some "hello world", some 3, none, none⟩, none⟩)
        true (isoOfMs 1000) :=
  analyze_two_calls_cache
    ⟨"https://x", some "T", ⟨some "hello world", some 3, none, none⟩, none⟩
    none none 0 1000 ⟨[("summary", "ok")]⟩ (.error ⟨"AnthropicError", none⟩)
    (by decide)

/-- C2: when the cache misses and the awaited AI call fails, the handler
performs no retry (exactly one invocation), leaves the cache exactly as it
was, and maps the failure to its typed response: 503 for Anthropic provider
errors and for the two network error codes, the generic 500 Analysis Failed
otherwise. -/
theorem analyze_ai_failure (cache : Cache) (now : Int) (req : Request)
    (e : JsError)
    (hmiss : cacheGet cache (generateCacheKey req.url req.content) now = none) :
    (analyze cache now req (.error e)).cache = cache ∧
    (analyze cache now req (.error e)).aiCalls = 1 ∧
    (analyze cache now req (.error e)).response =
      (if e.name = "AnthropicError" then AnalyzeResponse.err 503 "AI Service Error"
       else if e.code = some "ENOTFOUND" || e.code = some "ECONNREFUSED" then
         AnalyzeResponse.err 503 "Service Unavailable"
       else AnalyzeResponse.err 500 "Analysis Failed") := by
  have h : analyze cache now req (.error e) =
      { response := errorResponse e, cache := cache, aiCalls := 1 } := by
    simp only [analyze]
    rw [hmiss]
  exact ⟨congrArg AnalyzeOutcome.cache h, congrArg AnalyzeOutcome.aiCalls h,
    (congrArg AnalyzeOutcome.response h).trans rfl⟩

/-- C2 witness: the failure theorem applied to the empty cache and a
concrete provider error. -/
theorem analyze_ai_failure_witness :
    (analyze [] 0 ⟨"u", none, ⟨some "hello", some 10, none, none⟩, none⟩
        (.error ⟨"AnthropicError", none⟩)).cache = [] ∧
    (analyze [] 0 ⟨"u", none, ⟨some "hello", some 10, none, none⟩, none⟩
        (.error ⟨"AnthropicError", none⟩)).aiCalls = 1 ∧
    (analyze [] 0 ⟨"u", none, ⟨some "hello", some 10, none, none⟩, none⟩
        (.error ⟨"AnthropicError", none⟩)).response =
      (if (⟨"AnthropicError", none⟩ : JsError).name = "AnthropicError" then
         AnalyzeResponse.err 503 "AI Service Error"
       else if (⟨"AnthropicError", none⟩ : JsError).code = some "ENOTFOUND" ||
           (⟨"AnthropicError", none⟩ : JsError).code = some "ECONNREFUSED" then
         AnalyzeResponse.err 503 "Service Unavailable"
       else AnalyzeResponse.err 500 "Analysis Failed") :=
  analyze_ai_failure [] 0 ⟨"u", none, ⟨some "hello", some 10, none, none⟩, none⟩
    ⟨"AnthropicError", none⟩ rfl

end Webjage
